import Mathlib

/-!
Verification development for the resumable file-upload server
(`src/server.js` and `src/scripts/cleanup.js`), shallowly embedded in Lean.
Strings from the JavaScript side are embedded as `List Char`; the file
system visible to the server is embedded as the list of existing paths.
-/

namespace FileUploader

/-- JavaScript strings are embedded as lists of characters. -/
abbrev Str := List Char

/-! ## Filename sanitization (src/server.js, sanitizeFilename, lines 111-114) -/

/-- The character class of the first regex in `sanitizeFilename`:
the filesystem-hostile characters replaced by a hyphen. -/
def isHostileChar (c : Char) : Bool :=
  c = '/' || c = '\\' || c = '?' || c = '%' || c = '*' || c = ':' ||
  c = '|' || c = '"' || c = '<' || c = '>'

/-- `filename.replace(/[\/\\?%*:|"<>]/g, '-')`: a character-class regex with
the global flag replaces every hostile character independently. -/
def replaceHostile (s : Str) : Str :=
  s.map (fun c => if isHostileChar c then '-' else c)

/-- `.replace(/\.\./g, '-')`: global replacement scans left to right and
replaces each non-overlapping occurrence of two consecutive dots. -/
def replaceDotDot : Str → Str
  | [] => []
  | [c] => [c]
  | a :: b :: rest =>
    if a = '.' ∧ b = '.' then '-' :: replaceDotDot rest
    else a :: replaceDotDot (b :: rest)

/-- The whitespace set recognised by JavaScript's `String.prototype.trim`:
WhiteSpace (tab, VT, FF, space, NBSP, ZWNBSP, Unicode Zs) and
LineTerminator (LF, CR, LS, PS) code points. -/
def isJsWhitespace (c : Char) : Bool :=
  c.toNat = 0x09 || c.toNat = 0x0a || c.toNat = 0x0b || c.toNat = 0x0c ||
  c.toNat = 0x0d || c.toNat = 0x20 || c.toNat = 0xa0 || c.toNat = 0x1680 ||
  (0x2000 ≤ c.toNat && c.toNat ≤ 0x200a) || c.toNat = 0x2028 ||
  c.toNat = 0x2029 || c.toNat = 0x202f || c.toNat = 0x205f ||
  c.toNat = 0x3000 || c.toNat = 0xfeff

/-- `.trim()`: remove leading and trailing JavaScript whitespace. -/
def jsTrim (s : Str) : Str :=
  ((s.dropWhile isJsWhitespace).reverse.dropWhile isJsWhitespace).reverse

/-- The fixed placeholder name returned for a falsy (empty) input. -/
def unnamedFile : Str := "unnamed_file".data

/-- `sanitizeFilename` from src/server.js lines 111-114:
`if (!filename) return 'unnamed_file';` then replace hostile characters,
replace double dots, trim, and `substring(0, 255)`.  An empty list is the
embedding of a falsy string argument. -/
def sanitizeFilename (filename : Str) : Str :=
  if filename = [] then unnamedFile
  else (jsTrim (replaceDotDot (replaceHostile filename))).take 255

/-- Whether a string contains two consecutive dots (a `..` substring). -/
def hasDotDot : Str → Bool
  | [] => false
  | [_] => false
  | a :: b :: rest => (a = '.' && b = '.') || hasDotDot (b :: rest)

/-! ### Lemmas about the sanitizer -/

theorem mem_replaceDotDot {c : Char} (l : Str) :
    c ∈ replaceDotDot l → c ∈ l ∨ c = '-' := by
  induction l using replaceDotDot.induct with
  | case1 => intro h; simp [replaceDotDot] at h
  | case2 d =>
    intro h
    rw [replaceDotDot] at h
    exact Or.inl h
  | case3 a b rest hab ih =>
    intro h
    rw [replaceDotDot, if_pos hab] at h
    rcases List.mem_cons.mp h with h | h
    · exact Or.inr h
    · rcases ih h with h | h
      · exact Or.inl (by simp [h])
      · exact Or.inr h
  | case4 a b rest hab ih =>
    intro h
    rw [replaceDotDot, if_neg hab] at h
    rcases List.mem_cons.mp h with h | h
    · exact Or.inl (by simp [h])
    · rcases ih h with h | h
      · exact Or.inl (List.mem_cons_of_mem a h)
      · exact Or.inr h

theorem head_replaceDotDot {l : Str} {t : Str}
    (h : replaceDotDot l = '.' :: t) : ∃ u, l = '.' :: u := by
  match l with
  | [] => simp [replaceDotDot] at h
  | [c] =>
    rw [replaceDotDot] at h
    injection h with h1 _
    exact ⟨[], by rw [h1]⟩
  | a :: b :: rest =>
    rw [replaceDotDot] at h
    by_cases hab : a = '.' ∧ b = '.'
    · rw [if_pos hab] at h
      injection h with h1 _
      exact absurd h1 (by decide)
    · rw [if_neg hab] at h
      injection h with h1 _
      exact ⟨b :: rest, by rw [h1]⟩

/-- The double-dot replacement pass leaves no adjacent pair of dots. -/
theorem hasDotDot_replaceDotDot (l : Str) :
    hasDotDot (replaceDotDot l) = false := by
  induction l using replaceDotDot.induct with
  | case1 => rfl
  | case2 d => rfl
  | case3 a b rest hab ih =>
    rw [replaceDotDot, if_pos hab]
    cases hr : replaceDotDot rest with
    | nil => rfl
    | cons x xs =>
      rw [hasDotDot]
      have hx : ¬ ('-' = '.' ∧ x = '.') := by
        rintro ⟨h1, _⟩; exact absurd h1 (by decide)
      rw [← hr, ih]
      simp [hx]
  | case4 a b rest hab ih =>
    rw [replaceDotDot, if_neg hab]
    cases hr : replaceDotDot (b :: rest) with
    | nil => rfl
    | cons x xs =>
      rw [hasDotDot]
      by_cases hax : a = '.' ∧ x = '.'
      · exfalso
        rcases head_replaceDotDot (hr.trans (by rw [hax.2])) with ⟨u, hu⟩
        injection hu with h1 _
        exact hab ⟨hax.1, h1⟩
      · rw [← hr, ih]
        simp only [Bool.or_false, Bool.and_eq_false_iff, decide_eq_false_iff_not]
        by_cases h1 : a = '.'
        · exact Or.inr (fun h2 => hax ⟨h1, h2⟩)
        · exact Or.inl h1

theorem hasDotDot_cons_of {a : Char} {l : Str} (h : hasDotDot l = true) :
    hasDotDot (a :: l) = true := by
  cases l with
  | nil => simp [hasDotDot] at h
  | cons b t =>
    rw [hasDotDot]
    rw [h]
    simp

theorem hasDotDot_append_left {s : Str} (t : Str) (h : hasDotDot s = true) :
    hasDotDot (s ++ t) = true := by
  induction s with
  | nil => simp [hasDotDot] at h
  | cons a s ih =>
    cases s with
    | nil => simp [hasDotDot] at h
    | cons b u =>
      rw [hasDotDot] at h
      rcases Bool.or_eq_true_iff.mp h with h | h
      · show hasDotDot (a :: b :: (u ++ t)) = true
        rw [hasDotDot, h]
        simp
      · show hasDotDot (a :: (b :: u ++ t)) = true
        exact hasDotDot_cons_of (ih h)

theorem hasDotDot_append_right (s : Str) {t : Str} (h : hasDotDot t = true) :
    hasDotDot (s ++ t) = true := by
  induction s with
  | nil => simpa
  | cons a s ih => exact hasDotDot_cons_of ih

/-- No adjacent-dot pair is preserved by taking a prefix. -/
theorem hasDotDot_take {l : Str} (n : Nat)
    (h : hasDotDot l = false) : hasDotDot (l.take n) = false := by
  by_contra hc
  rw [Bool.not_eq_false] at hc
  have := hasDotDot_append_left (l.drop n) hc
  rw [List.take_append_drop, h] at this
  exact Bool.false_ne_true this

/-- No adjacent-dot pair is preserved by dropping a prefix. -/
theorem hasDotDot_drop {l : Str} (n : Nat)
    (h : hasDotDot l = false) : hasDotDot (l.drop n) = false := by
  by_contra hc
  rw [Bool.not_eq_false] at hc
  have := hasDotDot_append_right (l.take n) hc
  rw [List.take_append_drop, h] at this
  exact Bool.false_ne_true this

theorem hasDotDot_of_cons_false {a : Char} {l : Str}
    (h : hasDotDot (a :: l) = false) : hasDotDot l = false := by
  by_contra hc
  rw [Bool.not_eq_false] at hc
  rw [hasDotDot_cons_of hc] at h
  exact Bool.false_ne_true h.symm

theorem hasDotDot_dropWhile (p : Char → Bool) {l : Str}
    (h : hasDotDot l = false) : hasDotDot (l.dropWhile p) = false := by
  induction l with
  | nil => simpa
  | cons a t ih =>
    rw [List.dropWhile_cons]
    split
    · exact ih (hasDotDot_of_cons_false h)
    · exact h

theorem hasDotDot_reverse_of {l : Str} (h : hasDotDot l = true) :
    hasDotDot l.reverse = true := by
  induction l with
  | nil => simp [hasDotDot] at h
  | cons a t ih =>
    cases t with
    | nil => simp [hasDotDot] at h
    | cons b u =>
      rw [hasDotDot] at h
      rcases Bool.or_eq_true_iff.mp h with h | h
      · rcases Bool.and_eq_true_iff.mp h with ⟨ha, hb⟩
        rw [decide_eq_true_eq] at ha hb
        subst ha; subst hb
        have : ('.' :: '.' :: u).reverse = u.reverse ++ ['.', '.'] := by simp
        rw [this]
        have h2 : hasDotDot (['.', '.'] : Str) = true := by decide
        exact hasDotDot_append_right _ h2
      · have : (a :: b :: u).reverse = (b :: u).reverse ++ [a] := by simp
        rw [this]
        exact hasDotDot_append_left _ (ih h)

theorem hasDotDot_reverse_false {l : Str} (h : hasDotDot l = false) :
    hasDotDot l.reverse = false := by
  by_contra hc
  rw [Bool.not_eq_false] at hc
  have := hasDotDot_reverse_of hc
  rw [List.reverse_reverse, h] at this
  exact Bool.false_ne_true this

theorem mem_of_mem_dropWhile {x : Char} {p : Char → Bool} {l : Str}
    (h : x ∈ l.dropWhile p) : x ∈ l :=
  List.takeWhile_append_dropWhile (p := p) (l := l) ▸ List.mem_append_right _ h

theorem mem_of_mem_take {x : Char} {n : Nat} {l : Str}
    (h : x ∈ l.take n) : x ∈ l :=
  List.take_append_drop n l ▸ List.mem_append_left _ h

theorem mem_of_mem_jsTrim {x : Char} {s : Str} (h : x ∈ jsTrim s) : x ∈ s := by
  unfold jsTrim at h
  rw [List.mem_reverse] at h
  have h1 := mem_of_mem_dropWhile h
  rw [List.mem_reverse] at h1
  exact mem_of_mem_dropWhile h1

/-- Every character of the sanitized name is either a character the pipeline
kept from the input or a hyphen it substituted; in both cases it is not a
filesystem-hostile character. -/
theorem sanitizeFilename_no_hostile (s : Str) :
    ∀ c ∈ sanitizeFilename s, isHostileChar c = false := by
  intro c hc
  unfold sanitizeFilename at hc
  split at hc
  · revert hc
    have : ∀ c ∈ unnamedFile, isHostileChar c = false := by decide
    exact this c
  · have h1 := mem_of_mem_jsTrim (mem_of_mem_take hc)
    rcases mem_replaceDotDot _ h1 with h2 | h2
    · rcases List.mem_map.mp h2 with ⟨a, _, ha⟩
      by_cases hh : isHostileChar a = true
      · rw [if_pos hh] at ha
        rw [← ha]; decide
      · rw [if_neg hh] at ha
        rw [← ha]
        exact Bool.not_eq_true _ |>.mp hh
    · rw [h2]; decide

theorem sanitizeFilename_length (s : Str) :
    (sanitizeFilename s).length ≤ 255 := by
  unfold sanitizeFilename
  split
  · decide
  · exact List.length_take_le _ _

theorem sanitizeFilename_no_dotdot (s : Str) :
    hasDotDot (sanitizeFilename s) = false := by
  unfold sanitizeFilename
  split
  · decide
  · exact hasDotDot_take _ (by
      unfold jsTrim
      exact hasDotDot_reverse_false (hasDotDot_dropWhile _
        (hasDotDot_reverse_false (hasDotDot_dropWhile _
          (hasDotDot_replaceDotDot _)))))

/-- C9: for every input string, `sanitizeFilename` returns a string of
length at most 255 that contains no forward slash, no backslash, and no
pair of adjacent dots (no `..` substring), so a client-supplied filename
cannot steer the rename target outside the upload directory. -/
theorem sanitizeFilename_path_safe (s : Str) :
    (sanitizeFilename s).length ≤ 255 ∧
    '/' ∉ sanitizeFilename s ∧
    '\\' ∉ sanitizeFilename s ∧
    hasDotDot (sanitizeFilename s) = false := by
  refine ⟨sanitizeFilename_length s, ?_, ?_, sanitizeFilename_no_dotdot s⟩
  · intro h
    have := sanitizeFilename_no_hostile s _ h
    rw [show isHostileChar '/' = true from by decide] at this
    exact Bool.false_ne_true this.symm
  · intro h
    have := sanitizeFilename_no_hostile s _ h
    rw [show isHostileChar '\\' = true from by decide] at this
    exact Bool.false_ne_true this.symm

/-- Witness for the C9 theorem at a concrete hostile input. -/
theorem sanitizeFilename_path_safe_witness :
    (sanitizeFilename "../../etc/passwd".data).length ≤ 255 ∧
    '/' ∉ sanitizeFilename "../../etc/passwd".data ∧
    '\\' ∉ sanitizeFilename "../../etc/passwd".data ∧
    hasDotDot (sanitizeFilename "../../etc/passwd".data) = false :=
  sanitizeFilename_path_safe "../../etc/passwd".data

/-- C4 counterexample: the input consisting of a single space sanitizes to
the empty string, not to the placeholder `unnamed_file`; the placeholder
branch fires only on a falsy (empty) input, before any sanitization. -/
theorem sanitizeFilename_whitespace_empty :
    sanitizeFilename " ".data = [] ∧ sanitizeFilename " ".data ≠ unnamedFile := by
  constructor
  · decide
  · decide

/-- C4 (amended): the sanitizer eliminates path-traversal dot-pairs and
filesystem-hostile characters (substituting a hyphen), truncates the result
to at most 255 characters, and returns the fixed placeholder exactly for an
empty (falsy) input; an input whose sanitized result is empty (for example,
only whitespace) yields the empty string rather than the placeholder. -/
theorem sanitizeFilename_amended (s : Str) :
    (sanitizeFilename s).length ≤ 255 ∧
    (∀ c ∈ sanitizeFilename s, isHostileChar c = false) ∧
    hasDotDot (sanitizeFilename s) = false ∧
    (s = [] → sanitizeFilename s = unnamedFile) := by
  refine ⟨sanitizeFilename_length s, sanitizeFilename_no_hostile s,
    sanitizeFilename_no_dotdot s, ?_⟩
  intro h
  rw [sanitizeFilename, if_pos h]

/-- Witness for the amended C4 theorem at concrete inputs. -/
theorem sanitizeFilename_amended_witness :
    sanitizeFilename [] = unnamedFile ∧
    (sanitizeFilename "a<b".data).length ≤ 255 :=
  ⟨(sanitizeFilename_amended []).2.2.2 rfl, (sanitizeFilename_amended "a<b".data).1⟩

/-! ## Configuration (src/server.js, lines 41-51) -/

/-- The configuration object of src/server.js (the fields the verified
operations consult).  `allowedExtensions` is `none` when the environment
variable is `'*'` or unset, otherwise the parsed comma-separated list. -/
structure Config where
  uploadDir : Str
  maxFileSize : Nat
  minFreeSpace : Nat
  allowedExtensions : Option (List Str)
  uploadTimeout : Nat

/-- The configuration produced by the defaults in src/server.js lines 41-51
when no environment variables are set (the upload directory defaults to the
`uploads` folder next to the server script). -/
def defaultConfig : Config :=
  { uploadDir := "uploads".data
    maxFileSize := 10737418240
    minFreeSpace := 5368709120
    allowedExtensions := none
    uploadTimeout := 3600000 }

/-! ## File-system model

The upload directory's state is embedded as the list of paths that
currently exist.  `unlink` fails (ENOENT) on an absent path, as
`fsPromises.unlink` does; the `.catch(() => {})` wrappers in the source are
embedded by `unlinkQuiet`. -/

/-- The set of existing paths. -/
abbrev Fs := List Str

/-- `path.join(dir, name)` for a directory and a plain entry name. -/
def pathJoin (dir name : Str) : Str := dir ++ '/' :: name

/-- `fsPromises.unlink`: rejects with ENOENT when the path is absent. -/
def unlink (fs : Fs) (p : Str) : Except Unit Fs :=
  if p ∈ fs then Except.ok (fs.filter (fun q => decide (q ≠ p)))
  else Except.error ()

/-- `fsPromises.unlink(p).catch(() => {})`: a failed unlink is swallowed. -/
def unlinkQuiet (fs : Fs) (p : Str) : Fs :=
  match unlink fs p with
  | Except.ok fs1 => fs1
  | Except.error _ => fs

/-- `fsPromises.rename(oldPath, newPath)` on a present source path. -/
def renameFs (fs : Fs) (oldPath newPath : Str) : Fs :=
  newPath :: fs.filter (fun q => decide (q ≠ oldPath))

/-! ## cleanupUpload (src/server.js, lines 117-129) -/

/-- The partial-file path of an upload: `path.join(config.uploadDir, uploadId)`. -/
def partialPath (cfg : Config) (uploadId : Str) : Str :=
  pathJoin cfg.uploadDir uploadId

/-- The sidecar metadata path: `filePath + '.json'`. -/
def metadataPath (cfg : Config) (uploadId : Str) : Str :=
  partialPath cfg uploadId ++ ".json".data

/-- The file-system effect of `cleanupUpload`: both unlinks run (via
`Promise.allSettled`), each with its rejection swallowed by `.catch`. -/
def cleanupUploadFs (cfg : Config) (fs : Fs) (uploadId : Str) : Fs :=
  unlinkQuiet (unlinkQuiet fs (partialPath cfg uploadId)) (metadataPath cfg uploadId)

/-- `cleanupUpload` from src/server.js lines 117-129: attempts to unlink the
partial file and the metadata record, swallowing each individual failure,
and resolves normally. -/
def cleanupUpload (cfg : Config) (fs : Fs) (uploadId : Str) : Except Unit Fs :=
  Except.ok (cleanupUploadFs cfg fs uploadId)

theorem not_mem_unlinkQuiet_self (fs : Fs) (p : Str) : p ∉ unlinkQuiet fs p := by
  by_cases hp : p ∈ fs
  · simp [unlinkQuiet, unlink, hp]
  · simp [unlinkQuiet, unlink, hp]

theorem mem_of_mem_unlinkQuiet {fs : Fs} {p q : Str}
    (h : q ∈ unlinkQuiet fs p) : q ∈ fs := by
  by_cases hp : p ∈ fs
  · simp [unlinkQuiet, unlink, hp, List.mem_filter] at h
    exact h.1
  · simpa [unlinkQuiet, unlink, hp] using h

/-- C7: `cleanupUpload` resolves successfully for every file-system state
— in particular when the partial file, the metadata record, or both are
already absent — and afterwards neither the partial file nor the metadata
record exists. -/
theorem cleanupUpload_removes_both (cfg : Config) (fs : Fs) (uploadId : Str) :
    ∃ fs1, cleanupUpload cfg fs uploadId = Except.ok fs1 ∧
      partialPath cfg uploadId ∉ fs1 ∧
      metadataPath cfg uploadId ∉ fs1 := by
  refine ⟨cleanupUploadFs cfg fs uploadId, rfl, ?_, ?_⟩
  · intro hc
    exact not_mem_unlinkQuiet_self _ _ (mem_of_mem_unlinkQuiet hc)
  · exact not_mem_unlinkQuiet_self _ _

theorem partial_not_mem_cleanupUploadFs (cfg : Config) (fs : Fs) (uploadId : Str) :
    partialPath cfg uploadId ∉ cleanupUploadFs cfg fs uploadId := fun hc =>
  not_mem_unlinkQuiet_self _ _ (mem_of_mem_unlinkQuiet hc)

theorem metadata_not_mem_cleanupUploadFs (cfg : Config) (fs : Fs) (uploadId : Str) :
    metadataPath cfg uploadId ∉ cleanupUploadFs cfg fs uploadId :=
  not_mem_unlinkQuiet_self _ _

/-! ## Node path helpers

`path.extname` and `path.basename` are library functions; they are modelled
here for names without path separators, which is the only way the server
calls them: every name passed to them went through `sanitizeFilename` (or is
the literal placeholder), so it contains no slash or backslash. -/

/-- Index of the last dot in a name, if any. -/
def lastDotIdx : Str → Option Nat
  | [] => none
  | c :: rest =>
    match lastDotIdx rest with
    | some i => some (i + 1)
    | none => if c = '.' then some 0 else none

/-- Modelled from Node `path.extname` on a separator-free name: the suffix
starting at the last dot, except that a name with no dot, a name whose only
dot leads it (a dotfile), and the literal name `..` have no extension. -/
def extname (b : Str) : Str :=
  match lastDotIdx b with
  | none => []
  | some i => if i = 0 then [] else if b = ['.', '.'] then [] else b.drop i

/-- Modelled from Node `path.basename(p, ext)` on a separator-free name:
strips `ext` when it is a nonempty suffix of the name other than the whole
name. -/
def basenameExt (b ext : Str) : Str :=
  if ext = [] then b
  else if ext = b then b
  else if b.drop (b.length - ext.length) = ext then b.take (b.length - ext.length)
  else b

theorem lastDotIdx_lt {b : Str} {i : Nat} (h : lastDotIdx b = some i) :
    i < b.length := by
  induction b generalizing i with
  | nil => simp [lastDotIdx] at h
  | cons c t ih =>
    cases ht : lastDotIdx t with
    | some j =>
      rw [lastDotIdx, ht] at h
      injection h with h
      subst h
      have := ih ht
      simp only [List.length_cons]
      omega
    | none =>
      rw [lastDotIdx, ht] at h
      by_cases hc : c = '.'
      · rw [if_pos hc] at h
        injection h with h
        subst h
        simp
      · rw [if_neg hc] at h
        exact absurd h (by simp)

/-- The basename and extension computed by the finalization pipeline
recompose to the whole name. -/
theorem basenameExt_extname_append (b : Str) :
    basenameExt b (extname b) ++ extname b = b := by
  unfold extname
  cases hd : lastDotIdx b with
  | none => simp [basenameExt]
  | some i =>
    by_cases hi : i = 0
    · simp [hi, basenameExt]
    · by_cases hb : b = ['.', '.']
      · simp [hi, hb, basenameExt]
      · simp only [hi, hb, if_false, if_neg hi, if_neg hb]
        have hlt : i < b.length := lastDotIdx_lt hd
        have hpos : 0 < i := Nat.pos_of_ne_zero hi
        have hlen : (b.drop i).length = b.length - i := List.length_drop i b
        have hne1 : b.drop i ≠ [] := by
          intro hc
          rw [hc] at hlen
          simp at hlen
          omega
        have hne2 : b.drop i ≠ b := by
          intro hc
          have := congrArg List.length hc
          rw [hlen] at this
          omega
        have hsub : b.length - (b.drop i).length = i := by
          rw [hlen]
          omega
        unfold basenameExt
        rw [if_neg hne1, if_neg hne2, hsub, if_pos rfl]
        exact List.take_append_drop i b

/-! ## Finalization pipeline (src/server.js, onUploadFinish, lines 198-231) -/

/-- Lines 204-207: the effective file name is the sanitized metadata
filename when that metadata entry is truthy (present and nonempty),
otherwise the placeholder. -/
def effectiveFileName : Option Str → Str
  | some s => if s = [] then unnamedFile else sanitizeFilename s
  | none => unnamedFile

/-- Lines 209-214: the public name, `` `${baseName}--${hashedFileName}${extension}` ``
when the extension is truthy and `` `${baseName}--${hashedFileName}` `` otherwise,
where `hashedFileName` is the upload id. -/
def newFileName (filename : Option Str) (uploadId : Str) : Str :=
  let fileName := effectiveFileName filename
  let extension := extname fileName
  let baseName := basenameExt fileName extension
  if extension = [] then baseName ++ "--".data ++ uploadId
  else baseName ++ "--".data ++ uploadId ++ extension

/-- Fault injection for the stat and rename I/O steps of the finalization
pipeline (disk errors and other external failures of those calls). -/
structure Faults where
  statFault : Bool
  renameFault : Bool

/-- What the deferred finalization body did: a rename from the internal to
the public path, or the contained catch-and-cleanup fallback (the error is
logged; the process is not terminated). -/
inductive FinalizeOutcome
  | renamed (oldPath newPath : Str)
  | cleanedUp
  deriving DecidableEq

/-- The deferred body of `onUploadFinish` (src/server.js lines 202-230):
stat the partial file, rename it to the public name, unlink the metadata
record (failure swallowed); any stat/rename error is caught, logged, and
answered with `cleanupUpload`. -/
def onUploadFinishDeferred (cfg : Config) (flt : Faults) (fs : Fs)
    (uploadId : Str) (filename : Option Str) : Fs × FinalizeOutcome :=
  let name := newFileName filename uploadId
  let oldFilePath := partialPath cfg uploadId
  let newFilePath := pathJoin cfg.uploadDir name
  if oldFilePath ∈ fs then
    if flt.statFault then (cleanupUploadFs cfg fs uploadId, FinalizeOutcome.cleanedUp)
    else if flt.renameFault then (cleanupUploadFs cfg fs uploadId, FinalizeOutcome.cleanedUp)
    else (unlinkQuiet (renameFs fs oldFilePath newFilePath) (metadataPath cfg uploadId),
          FinalizeOutcome.renamed oldFilePath newFilePath)
  else (cleanupUploadFs cfg fs uploadId, FinalizeOutcome.cleanedUp)

theorem effectiveFileName_some (s : Str) :
    effectiveFileName (some s) = sanitizeFilename s := by
  unfold effectiveFileName sanitizeFilename
  by_cases h : s = [] <;> simp [h]

theorem newFileName_some (s uploadId : Str) :
    newFileName (some s) uploadId =
      basenameExt (sanitizeFilename s) (extname (sanitizeFilename s)) ++
        "--".data ++ uploadId ++ extname (sanitizeFilename s) := by
  simp only [newFileName, effectiveFileName_some]
  split
  · rename_i hext
    rw [hext]
    simp
  · rfl

/-- Witness for the C7 theorem on a state where both files are already
absent. -/
theorem cleanupUpload_removes_both_witness :
    ∃ fs1, cleanupUpload defaultConfig [] "abc".data = Except.ok fs1 ∧
      partialPath defaultConfig "abc".data ∉ fs1 ∧
      metadataPath defaultConfig "abc".data ∉ fs1 :=
  cleanupUpload_removes_both defaultConfig [] "abc".data

/-- C6: whenever the stat or the rename step of the finalization pipeline
fails — the partial file is missing, or the stat or rename call faults —
the pipeline falls back to full cleanup: afterwards neither the partial
file nor the metadata record exists, and the outcome is the contained
cleanup fallback (logged, not fatal to the process). -/
theorem finalize_failure_falls_back_to_cleanup (cfg : Config) (flt : Faults)
    (fs : Fs) (uploadId : Str) (filename : Option Str)
    (h : partialPath cfg uploadId ∉ fs ∨ flt.statFault = true ∨ flt.renameFault = true) :
    (onUploadFinishDeferred cfg flt fs uploadId filename).2 = FinalizeOutcome.cleanedUp ∧
    partialPath cfg uploadId ∉ (onUploadFinishDeferred cfg flt fs uploadId filename).1 ∧
    metadataPath cfg uploadId ∉ (onUploadFinishDeferred cfg flt fs uploadId filename).1 := by
  simp only [onUploadFinishDeferred]
  by_cases hmem : partialPath cfg uploadId ∈ fs
  · rw [if_pos hmem]
    by_cases hs : flt.statFault = true
    · rw [if_pos hs]
      exact ⟨rfl, partial_not_mem_cleanupUploadFs cfg fs uploadId,
        metadata_not_mem_cleanupUploadFs cfg fs uploadId⟩
    · rw [if_neg hs]
      by_cases hr : flt.renameFault = true
      · rw [if_pos hr]
        exact ⟨rfl, partial_not_mem_cleanupUploadFs cfg fs uploadId,
          metadata_not_mem_cleanupUploadFs cfg fs uploadId⟩
      · rcases h with h | h | h
        · exact absurd hmem h
        · exact absurd h hs
        · exact absurd h hr
  · rw [if_neg hmem]
    exact ⟨rfl, partial_not_mem_cleanupUploadFs cfg fs uploadId,
      metadata_not_mem_cleanupUploadFs cfg fs uploadId⟩

/-- Witness for the C6 theorem: a concrete state in which the partial file
is absent when the deferred rename fires. -/
theorem finalize_failure_falls_back_to_cleanup_witness :
    (onUploadFinishDeferred defaultConfig ⟨false, false⟩ [] "abc".data none).2 =
      FinalizeOutcome.cleanedUp :=
  (finalize_failure_falls_back_to_cleanup defaultConfig ⟨false, false⟩ []
    "abc".data none (Or.inl (by simp))).1

/-- C5: a successful finalization renames the internal partial file, stored
under the upload identifier, to a public name of exactly the shape
`base ++ "--" ++ id ++ ext`, where `base` and `ext` are the basename and
extension of the sanitized client-supplied original filename and recompose
to it. -/
theorem finalize_renames_to_formatted_name (cfg : Config) (flt : Faults)
    (fs : Fs) (uploadId s : Str)
    (hstat : flt.statFault = false) (hren : flt.renameFault = false)
    (hmem : partialPath cfg uploadId ∈ fs) :
    ∃ base ext,
      (onUploadFinishDeferred cfg flt fs uploadId (some s)).2 =
        FinalizeOutcome.renamed (partialPath cfg uploadId)
          (pathJoin cfg.uploadDir (base ++ "--".data ++ uploadId ++ ext)) ∧
      base ++ ext = sanitizeFilename s ∧
      ext = extname (sanitizeFilename s) := by
  refine ⟨basenameExt (sanitizeFilename s) (extname (sanitizeFilename s)),
    extname (sanitizeFilename s), ?_, basenameExt_extname_append _, rfl⟩
  simp only [onUploadFinishDeferred, if_pos hmem, hstat, hren, Bool.false_eq_true,
    if_false, newFileName_some]

/-- Witness for the C5 theorem at a concrete completed upload. -/
theorem finalize_renames_to_formatted_name_witness :
    ∃ base ext,
      (onUploadFinishDeferred defaultConfig ⟨false, false⟩
          [partialPath defaultConfig "abc".data] "abc".data
          (some "report.pdf".data)).2 =
        FinalizeOutcome.renamed (partialPath defaultConfig "abc".data)
          (pathJoin defaultConfig.uploadDir
            (base ++ "--".data ++ "abc".data ++ ext)) ∧
      base ++ ext = sanitizeFilename "report.pdf".data ∧
      ext = extname (sanitizeFilename "report.pdf".data) :=
  finalize_renames_to_formatted_name defaultConfig ⟨false, false⟩
    [partialPath defaultConfig "abc".data] "abc".data "report.pdf".data
    rfl rfl (by simp)

/-- C10: a completed upload whose metadata has no filename entry is renamed
to exactly `unnamed_file--<id>`, with no extension appended. -/
theorem finalize_unnamed_no_extension (cfg : Config) (flt : Faults)
    (fs : Fs) (uploadId : Str)
    (hstat : flt.statFault = false) (hren : flt.renameFault = false)
    (hmem : partialPath cfg uploadId ∈ fs) :
    newFileName none uploadId = "unnamed_file--".data ++ uploadId ∧
    (onUploadFinishDeferred cfg flt fs uploadId none).2 =
      FinalizeOutcome.renamed (partialPath cfg uploadId)
        (pathJoin cfg.uploadDir ("unnamed_file--".data ++ uploadId)) := by
  have hname : newFileName none uploadId = "unnamed_file--".data ++ uploadId := by
    simp only [newFileName, effectiveFileName]
    rw [show extname unnamedFile = [] from by decide]
    rw [if_pos rfl]
    rw [show basenameExt unnamedFile [] = unnamedFile from by decide]
    congr 1
  refine ⟨hname, ?_⟩
  simp only [onUploadFinishDeferred, if_pos hmem, hstat, hren, Bool.false_eq_true,
    if_false, hname]

/-- Witness for the C10 theorem at a concrete upload identifier. -/
theorem finalize_unnamed_no_extension_witness :
    newFileName none "xyz".data = "unnamed_file--xyz".data ∧
    (onUploadFinishDeferred defaultConfig ⟨false, false⟩
        [partialPath defaultConfig "xyz".data] "xyz".data none).2 =
      FinalizeOutcome.renamed (partialPath defaultConfig "xyz".data)
        (pathJoin defaultConfig.uploadDir "unnamed_file--xyz".data) := by
  have h := finalize_unnamed_no_extension defaultConfig ⟨false, false⟩
    [partialPath defaultConfig "xyz".data] "xyz".data rfl rfl (by simp)
  refine ⟨?_, ?_⟩
  · rw [h.1]; decide
  · rw [h.2]; rw [show ("unnamed_file--".data ++ "xyz".data : Str) = "unnamed_file--xyz".data from by decide]

/-- The configuration with `ALLOWED_EXTENSIONS=jpg` set in the environment
(src/server.js line 48 parses it into `['jpg']`). -/
def allowJpgConfig : Config :=
  { defaultConfig with allowedExtensions := some ["jpg".data] }

/-- C3 evidence: with the allow-list configured to `['jpg']`, a completed
upload named `evil.exe` — whose extension is not in the list — is still
renamed to its public finalized name `evil--abc.exe`: `onUploadFinish`
never consults `config.allowedExtensions`. -/
theorem finalize_ignores_allowed_extensions :
    allowJpgConfig.allowedExtensions = some ["jpg".data] ∧
    (onUploadFinishDeferred allowJpgConfig ⟨false, false⟩
        [partialPath allowJpgConfig "abc".data] "abc".data
        (some "evil.exe".data)).2 =
      FinalizeOutcome.renamed (partialPath allowJpgConfig "abc".data)
        (pathJoin allowJpgConfig.uploadDir "evil--abc.exe".data) := by
  exact ⟨rfl, by decide⟩

/-! ## Creation-rate limiter (src/server.js, lines 150-154 and 260-263) -/

/-- Line 151: `windowMs: 15 * 60 * 1000`. -/
def uploadCreationLimiterWindowMs : Nat := 15 * 60 * 1000

/-- Line 152: `max: 50`. -/
def uploadCreationLimiterMax : Nat := 50

/-- Line 153: `skip: (req) => req.method !== 'POST'`. -/
def uploadCreationLimiterSkip (method : Str) : Bool :=
  decide (method ≠ "POST".data)

/-- Modelled from the spec: the express-rate-limit middleware itself is not
part of this repository.  Per the spec, "a creation-rate limiter bounds the
number of new uploads accepted per client-identifying key per time window
... returning a rate-limit error beyond the threshold".  One middleware
step on the per-key hit count within the current window: a request the
configured skip predicate excuses passes without being counted; any other
request is counted and allowed only while the count stays within the
configured maximum.  The returned pair is the new hit count and whether the
request is allowed through. -/
def rateLimitStep (hits : Nat) (method : Str) : Nat × Bool :=
  if uploadCreationLimiterSkip method then (hits, true)
  else (hits + 1, decide (hits + 1 ≤ uploadCreationLimiterMax))

/-- C8: the creation-rate limiter counts and can reject only POST (create)
requests.  Any request whose method is not POST — in particular a
chunk-append PATCH, a status HEAD, or a delete DELETE — passes through
uncounted and is never rejected, whatever the current hit count, so an
in-flight resumable transfer is never throttled; conversely, a request the
limiter counted or rejected must have been a POST. -/
theorem limiter_applies_only_to_post (hits : Nat) (method : Str) :
    (method ≠ "POST".data → rateLimitStep hits method = (hits, true)) ∧
    (rateLimitStep hits method ≠ (hits, true) → method = "POST".data) := by
  constructor
  · intro h
    simp [rateLimitStep, uploadCreationLimiterSkip, h]
  · intro h
    by_contra hm
    exact h (by simp [rateLimitStep, uploadCreationLimiterSkip, hm])

/-- Witness for the C8 theorem: a PATCH request is passed through untouched
even with the hit count far beyond the threshold. -/
theorem limiter_applies_only_to_post_witness :
    rateLimitStep 1000 "PATCH".data = (1000, true) :=
  (limiter_applies_only_to_post 1000 "PATCH".data).1 (by decide)

/-! ## Disk-space check and upload creation
(src/server.js, lines 92-108 and 193-236) -/

/-- `checkAvailableSpace` from src/server.js lines 92-108: reports whether
the free space of the upload directory's disk is at least the configured
floor; an error of the probe itself (the catch branch) also reports false. -/
def checkAvailableSpace (cfg : Config) (freeSpace : Nat) (probeFault : Bool) : Bool :=
  if probeFault then false
  else if freeSpace < cfg.minFreeSpace then false
  else true

/-- Errors the modelled create operation can raise. -/
inductive CreateError
  | invalidSize
  | rateLimited
  deriving DecidableEq

/-- Modelled from the spec: the tus create operation itself (`@tus/server`)
is not part of this repository.  Per the spec, `create(size, metadata)`
"fails with `InvalidSize` if size exceeds the configured maximum or is
non-positive" and on success "allocates/creates the Metadata Record and an
empty Partial File".  The Server options configured at src/server.js lines
193-232 set only `path`, `datastore`, `maxSize` and `onUploadFinish`, so
the only create-time validation is the declared size against `maxSize`; no
configured hook calls `checkAvailableSpace` or reads the free disk space
(the `freeSpace` argument below), and a successful create adds the partial
file and the metadata record under the upload directory. -/
def handleCreate (cfg : Config) (fs : Fs) (freeSpace : Nat)
    (declaredSize : Nat) (uploadId : Str) : Except CreateError Fs :=
  if declaredSize = 0 ∨ declaredSize > cfg.maxFileSize then
    Except.error CreateError.invalidSize
  else
    Except.ok (partialPath cfg uploadId :: metadataPath cfg uploadId :: fs)

/-- C1 evidence: with free disk space 0 — far below the default
5368709120-byte floor, so `checkAvailableSpace` would report false — a
create request for a 1-byte upload still succeeds and creates both the
partial file and the metadata record, and the result of a create does not
depend on the free space at all: no configured code path rejects a create
with `InsufficientStorage`. -/
theorem create_ignores_disk_floor :
    checkAvailableSpace defaultConfig 0 false = false ∧
    handleCreate defaultConfig [] 0 1 "abc".data =
      Except.ok [partialPath defaultConfig "abc".data,
        metadataPath defaultConfig "abc".data] ∧
    ∀ freeSpace, handleCreate defaultConfig [] freeSpace 1 "abc".data =
      handleCreate defaultConfig [] 0 1 "abc".data := by
  refine ⟨by decide, ?_, fun _ => rfl⟩
  rw [handleCreate, if_neg (by decide)]

/-! ## Offline expiry sweep (src/scripts/cleanup.js) -/

/-- A directory entry of the upload directory as the sweep observes it:
its name, whether `stat` reports a regular file, its modification time in
milliseconds, and its size in bytes. -/
structure DirEntry where
  name : Str
  isFile : Bool
  mtimeMs : Int
  size : Nat
  deriving DecidableEq

/-- `MAX_AGE_MS = MAX_AGE_DAYS * 24 * 60 * 60 * 1000` with
`MAX_AGE_DAYS = 30` (cleanup.js lines 10-11). -/
def MAX_AGE_MS : Int := 30 * 24 * 60 * 60 * 1000

/-- `cleanupOldFiles` from src/scripts/cleanup.js lines 13-49: walk the
upload directory, skip the `.gitkeep` entry, and unlink every regular file
whose age `now - stats.mtimeMs` strictly exceeds `MAX_AGE_MS`, counting the
deleted files and the freed bytes.  Returns the surviving entries, the
deleted count, and the freed space. -/
def cleanupOldFiles (now : Int) : List DirEntry → List DirEntry × Nat × Nat
  | [] => ([], 0, 0)
  | e :: rest =>
    let r := cleanupOldFiles now rest
    if e.name = ".gitkeep".data then (e :: r.1, r.2.1, r.2.2)
    else if e.isFile then
      if now - e.mtimeMs > MAX_AGE_MS then (r.1, r.2.1 + 1, r.2.2 + e.size)
      else (e :: r.1, r.2.1, r.2.2)
    else (e :: r.1, r.2.1, r.2.2)

/-- The condition under which the sweep keeps an entry, as a Boolean. -/
def sweepKeeps (now : Int) (e : DirEntry) : Bool :=
  !(decide (e.name ≠ ".gitkeep".data) && e.isFile &&
    decide (now - e.mtimeMs > MAX_AGE_MS))

/-- The sweep's survivors are exactly the entries its keep-condition
retains. -/
theorem sweep_survivors_eq (now : Int) (entries : List DirEntry) :
    (cleanupOldFiles now entries).1 = entries.filter (sweepKeeps now) := by
  induction entries with
  | nil => rfl
  | cons a rest ih =>
    simp only [cleanupOldFiles, List.filter_cons]
    by_cases hg : a.name = ".gitkeep".data
    · rw [if_pos hg]
      have hk : sweepKeeps now a = true := by simp [sweepKeeps, hg]
      rw [hk]
      simp only [if_true]
      rw [ih]
    · rw [if_neg hg]
      by_cases hf : a.isFile = true
      · rw [if_pos hf]
        by_cases ha : now - a.mtimeMs > MAX_AGE_MS
        · rw [if_pos ha]
          have hk : sweepKeeps now a = false := by simp [sweepKeeps, hg, hf, ha]
          rw [hk]
          simp only [Bool.false_eq_true, if_false]
          exact ih
        · rw [if_neg ha]
          have hk : sweepKeeps now a = true := by simp [sweepKeeps, ha]
          rw [hk]
          simp only [if_true]
          rw [ih]
      · rw [if_neg hf]
        have hk : sweepKeeps now a = true := by simp [sweepKeeps, hf]
        rw [hk]
        simp only [if_true]
        rw [ih]

/-- C2 counterexample: the upload `abc` with client filename `report.pdf`
completes and is finalized to the public file `report--abc.pdf` — a
Completed upload, its metadata record gone.  Once that file's age exceeds
the 30-day window, the sweep deletes it: completion does not exempt a file
from the sweep. -/
theorem sweep_deletes_completed_file :
    newFileName (some "report.pdf".data) "abc".data = "report--abc.pdf".data ∧
    cleanupOldFiles (MAX_AGE_MS + 1)
        [⟨"report--abc.pdf".data, true, 0, 100⟩] = ([], 1, 100) := by
  constructor
  · decide
  · decide

/-- C2 (amended): the sweep deletes an entry of the storage root if and
only if it is not the `.gitkeep` placeholder, it is a regular file, and its
age since last modification strictly exceeds the 30-day maximum — upload
status is not consulted, so Completed (finalized) files past the window are
deleted like any other. -/
theorem sweep_deletes_iff (now : Int) (entries : List DirEntry) (e : DirEntry)
    (he : e ∈ entries) :
    e ∈ (cleanupOldFiles now entries).1 ↔
      ¬(e.name ≠ ".gitkeep".data ∧ e.isFile = true ∧
        now - e.mtimeMs > MAX_AGE_MS) := by
  rw [sweep_survivors_eq, List.mem_filter]
  simp only [he, true_and, sweepKeeps]
  constructor
  · intro h hc
    rcases hc with ⟨h1, h2, h3⟩
    simp [h1, h2, h3] at h
  · intro h
    simp only [Bool.not_eq_true', Bool.and_eq_false_iff, decide_eq_false_iff_not]
    by_cases h1 : e.name ≠ ".gitkeep".data
    · by_cases h2 : e.isFile = true
      · exact Or.inr (fun h3 => h ⟨h1, h2, h3⟩)
      · exact Or.inl (Or.inr (by simpa using h2))
    · exact Or.inl (Or.inl h1)

/-- Witness for the amended C2 theorem: the placeholder entry survives a
sweep however old it is. -/
theorem sweep_deletes_iff_witness :
    (⟨".gitkeep".data, true, 0, 0⟩ : DirEntry) ∈
      (cleanupOldFiles (MAX_AGE_MS + 1) [⟨".gitkeep".data, true, 0, 0⟩]).1 :=
  (sweep_deletes_iff (MAX_AGE_MS + 1) [⟨".gitkeep".data, true, 0, 0⟩]
    ⟨".gitkeep".data, true, 0, 0⟩ (by simp)).mpr (by simp)

end FileUploader
